import Mathlib

/-!
# Counter aggregation of `PerfReporter` (features/trace_examples/cpp/notice/main.cpp)

A shallow embedding of the trace visitor `PerfReporter`: its counter table
(`std::map<std::string, double>`), the per-event callback `OnEvent`, the two
query methods `HasCounter` and `GetCounterValue`, the category filter
`AcceptsCategory`, and the collection callback `_OnCollection`.

Modelling conventions
* `double` is IEEE 754 binary64: the type `Double` holds NaN, the two
  infinities and every finite value (both zeros and the subnormals included);
  `Double.add` is addition rounded to nearest, ties to even, with overflow to
  infinity. NaN payloads are not told apart.
* The counter table is the finite map it denotes: a lookup function from keys
  to optional values. Two tables are equal when they hold the same keys with
  the same values.
* `printf` output of the callbacks is kept as a list of abstract messages in
  the reporter state, so that the printing branches of `OnEvent` stay visible.
* The id computed by the library's `TraceCategory::CreateTraceCategoryId` is a
  parameter `mkId` of every definition that needs it.
* The second notice handler, `some_function_to_run_on_create_collection`,
  writes one line to `std::cout` and reads no member of the reporter; it is
  left out.
-/

namespace PerfTrace

/-! ## The type `double` -/

/-- IEEE 754 binary64 data. A finite value is its sign and the 63 low bits of
its encoding (the exponent field times `2 ^ 52` plus the fraction field),
which lie below `0x7FF0000000000000`, the encoding of infinity. -/
inductive Double where
  | nan
  | inf (neg : Bool)
  | finite (neg : Bool) (bits : Fin 0x7FF0000000000000)
  deriving DecidableEq, Repr

namespace Double

/-- The integer significand of the encoding `bits`: the fraction field for a
subnormal (exponent field `0`), else the fraction field with the hidden bit. -/
def significand (bits : Nat) : Nat :=
  if bits / 2 ^ 52 = 0 then bits % 2 ^ 52 else 2 ^ 52 + bits % 2 ^ 52

/-- The magnitude of the encoding `bits` as a multiple of `2 ^ (-1074)`, the
least positive double. -/
def units (bits : Nat) : Nat :=
  significand bits <<< (bits / 2 ^ 52 - 1)

/-- How far a magnitude has to be shifted right to fit 53 bits, found by
halving; `fuel` bounds the number of halvings. -/
def shiftFor : Nat → Nat → Nat
  | 0, _ => 0
  | fuel + 1, n => if n < 2 ^ 53 then 0 else shiftFor fuel (n / 2) + 1

/-- The encoding nearest to `n` multiples of `2 ^ (-1074)`, ties to the even
encoding. The result may reach `0x7FF0000000000000` or more: overflow. -/
def roundUnits (n : Nat) : Nat :=
  let sh := shiftFor n n
  let q := n >>> sh
  let rem := n % (1 <<< sh)
  let bits := sh * 2 ^ 52 + q
  if 2 * rem > 1 <<< sh ∨ (2 * rem = 1 <<< sh ∧ q % 2 = 1) then bits + 1 else bits

/-- The double nearest to `n` multiples of `2 ^ (-1074)` with the given sign;
infinity on overflow. -/
def ofUnits (neg : Bool) (n : Nat) : Double :=
  if h : roundUnits n < 0x7FF0000000000000 then finite neg ⟨roundUnits n, h⟩ else inf neg

/-- A magnitude with its sign, as an integer. -/
def signed (neg : Bool) (n : Nat) : Int := if neg then -(n : Int) else n

/-- The value `0.0`, which value-initialisation of a `double` gives. -/
def zero : Double := finite false ⟨0, by decide⟩

/-- The value `-0.0`. -/
def negZero : Double := finite true ⟨0, by decide⟩

/-- The sum `x + y` of two doubles, as `+=` computes it. An exact sum of zero
is `-0.0` when both operands are negative and `0.0` otherwise. -/
def add : Double → Double → Double
  | nan, _ => nan
  | _, nan => nan
  | inf a, inf b => if a = b then inf a else nan
  | inf a, finite _ _ => inf a
  | finite _ _, inf b => inf b
  | finite a x, finite b y =>
    let s : Int := signed a (units x.val) + signed b (units y.val)
    if s = 0 then finite (a && b) ⟨0, by decide⟩ else ofUnits (decide (s < 0)) s.natAbs

/-- The comparison `x > y` of two doubles. -/
def gt : Double → Double → Bool
  | nan, _ => false
  | _, nan => false
  | inf a, inf b => !a && b
  | inf a, finite _ _ => !a
  | finite _ _, inf b => b
  | finite a x, finite b y => decide (signed a (units x.val) > signed b (units y.val))

/-- The comparison `x == y` of two doubles. -/
def eq : Double → Double → Bool
  | nan, _ => false
  | _, nan => false
  | inf a, inf b => a == b
  | inf _, finite _ _ => false
  | finite _ _, inf _ => false
  | finite a x, finite b y => decide (signed a (units x.val) = signed b (units y.val))

/-- The conversion of an integer to `double`. -/
def ofInt (i : Int) : Double :=
  if i = 0 then zero else ofUnits (decide (i < 0)) (i.natAbs <<< 1074)

/-- The exact number a double stands for; none for NaN and the infinities. -/
def toRat : Double → Option ℚ
  | nan => none
  | inf _ => none
  | finite neg bits =>
    some ((signed neg (significand bits.val) : ℚ) *
      2 ^ (((bits.val / 2 ^ 52 - 1 : Nat) : Int) - 1074))

/-- The exact sum of the numbers a list of doubles stands for. -/
def exactSum : List Double → Option ℚ
  | [] => some 0
  | v :: rest =>
    match v.toRat, exactSum rest with
    | some a, some b => some (a + b)
    | _, _ => none

/-- What a counter holds after one more delta `v`: `v` itself when the key was
absent, else the double sum of the held value and `v`. -/
def accumulate : Option Double → Double → Double
  | none, v => v
  | some old, v => old.add v

/-- What a counter holds after the deltas `vs`, taken in order. -/
def accumulateAll (stored : Option Double) (vs : List Double) : Option Double :=
  vs.foldl (fun o v => some (accumulate o v)) stored

/-- The double sum of `v1 .. vn` in order: `((v1 + v2) + v3) + ...`, every
partial sum rounded; `0.0` for the empty list. -/
def sum : List Double → Double
  | [] => zero
  | v :: rest => rest.foldl add v

end Double

/-! ## Library-side data -/

/-- Category ids are unsigned integers computed from the category name. -/
abbrev TraceCategoryId := Nat

/-- Thread ids are plain labels; `PerfReporter` never inspects them. -/
abbrev TraceThreadId := String

/-- Event keys; `OnEvent` reads them through `GetString`. -/
abbrev TfToken := String

/-- Modelled from the spec: the event kinds of the Event data model (scope
begin, scope end, counter delta, and further kinds). The enumeration is
declared by the tracing library; the source names only `CounterDelta`. -/
inductive EventType where
  | Begin
  | End
  | CounterDelta
  | Other (tag : Nat)
  deriving DecidableEq, Repr

/-- Modelled from the spec: an immutable event record with its kind, its
category id and its numeric payload (the key travels next to the event). -/
structure TraceEvent where
  type : EventType
  category : TraceCategoryId
  counterValue : Double
  deriving DecidableEq

/-- The accessor `e.GetType()`. -/
def TraceEvent.GetType (e : TraceEvent) : EventType := e.type

/-- The accessor `e.GetCounterValue()`. -/
def TraceEvent.GetCounterValue (e : TraceEvent) : Double := e.counterValue

/-- The accessor `e.GetCategory()`. -/
def TraceEvent.GetCategory (e : TraceEvent) : TraceCategoryId := e.category

/-! ## `std::map<std::string, double>` -/

/-- The counter table `std::map<std::string, double>` as a lookup function. -/
@[ext]
structure CounterTable where
  lookup : String → Option Double

namespace CounterTable

/-- A default-constructed map. -/
def empty : CounterTable := ⟨fun _ => none⟩

/-- The call `counters.find(key)`: `none` stands for `counters.end()`. -/
def find (m : CounterTable) (key : String) : Option Double := m.lookup key

/-- The call `counters.insert({key, value})`: stores the pair when the key is
absent and leaves the map alone when the key is already present. -/
def insert (m : CounterTable) (key : String) (value : Double) : CounterTable :=
  match m.lookup key with
  | some _ => m
  | none => ⟨fun k => if k = key then some value else m.lookup k⟩

/-- A write through an iterator that points at `key`: `it->second = value`. -/
def assign (m : CounterTable) (key : String) (value : Double) : CounterTable :=
  ⟨fun k => if k = key then some value else m.lookup k⟩

/-- The expression `counters[key]`: when the key is absent a value-initialised
entry (`0.0`) is inserted first; the stored value is returned together with
the map as it is afterwards. -/
def index (m : CounterTable) (key : String) : Double × CounterTable :=
  match m.find key with
  | some v => (v, m)
  | none => (Double.zero, m.insert key Double.zero)

end CounterTable

/-! ## `PerfCategory` and `PerfReporter` -/

/-- The call `PerfCategory::GetId()`: the id of the name `"CustomPerfCounter"`. -/
def PerfCategory.GetId (mkId : String → TraceCategoryId) : TraceCategoryId :=
  mkId "CustomPerfCounter"

/-- What the callbacks write with `printf`. -/
inductive Printed where
  /-- The line `Perf found value "%f" that is greater than one`. -/
  | greaterThanOne (value : Double)
  /-- The line `Perf counter event: %s %f`. -/
  | counterEvent (key : String) (value : Double)
  deriving DecidableEq

/-- The state of a `PerfReporter`: its member `counters`, and the messages its
callbacks have printed so far. -/
@[ext]
structure PerfReporter where
  counters : CounterTable
  printed : List Printed

namespace PerfReporter

/-- The constructor `PerfReporter()`: an empty counter table, nothing printed. -/
def new : PerfReporter := ⟨CounterTable.empty, []⟩

/-- The method `AcceptsCategory`. -/
def AcceptsCategory (mkId : String → TraceCategoryId) (_r : PerfReporter)
    (id : TraceCategoryId) : Bool :=
  id == PerfCategory.GetId mkId

/-- The method `OnEvent`. The test `value > 1` compares with the integer `1`
converted to `double`; `it->second += value` is a double addition. -/
def OnEvent (r : PerfReporter) (_thread : TraceThreadId) (k : TfToken)
    (e : TraceEvent) : PerfReporter :=
  if e.GetType ≠ EventType.CounterDelta then
    r
  else
    let key : String := k
    let it := r.counters.find key
    let value := e.GetCounterValue
    let r1 : PerfReporter :=
      match it with
      | none =>
        let out :=
          if value.gt (Double.ofInt 1) then r.printed ++ [Printed.greaterThanOne value]
          else r.printed
        ⟨r.counters.insert key value, out⟩
      | some second =>
        let out :=
          if value.gt (Double.ofInt 1) then r.printed ++ [Printed.greaterThanOne value]
          else r.printed
        ⟨r.counters.assign key (second.add value), out⟩
    ⟨r1.counters, r1.printed ++ [Printed.counterEvent key value]⟩

/-- The unused callback `OnBeginCollection`. -/
def OnBeginCollection (r : PerfReporter) : PerfReporter := r

/-- The unused callback `OnEndCollection`. -/
def OnEndCollection (r : PerfReporter) : PerfReporter := r

/-- The unused callback `OnBeginThread`. -/
def OnBeginThread (r : PerfReporter) (_thread : TraceThreadId) : PerfReporter := r

/-- The unused callback `OnEndThread`. -/
def OnEndThread (r : PerfReporter) (_thread : TraceThreadId) : PerfReporter := r

/-- The method `HasCounter` (declared `const`). -/
def HasCounter (r : PerfReporter) (key : String) : Bool :=
  (r.counters.find key).isSome

/-- The method `GetCounterValue` (not `const`): returns `counters[key]` and the
reporter as the call leaves it. -/
def GetCounterValue (r : PerfReporter) (key : String) : Double × PerfReporter :=
  let res := r.counters.index key
  (res.1, ⟨res.2, r.printed⟩)

end PerfReporter

/-! ## Collections and their traversal -/

/-- Modelled from the spec: a collection is an ordered sequence of events,
grouped by thread; each group keeps its events in recording order. The type
is the library's `TraceCollection`. -/
abbrev TraceCollection := List (TraceThreadId × List (TfToken × TraceEvent))

/-- All events of a collection, in traversal order. -/
def TraceCollection.events (c : TraceCollection) : List (TfToken × TraceEvent) :=
  (c.map (fun g => g.2)).flatten

/-- Modelled from the spec: the capability set of the Visitor interface, the
library's `TraceCollection::Visitor`, over a visitor state `σ`. -/
structure Visitor (σ : Type) where
  AcceptsCategory : σ → TraceCategoryId → Bool
  OnBeginCollection : σ → σ
  OnEndCollection : σ → σ
  OnBeginThread : σ → TraceThreadId → σ
  OnEndThread : σ → TraceThreadId → σ
  OnEvent : σ → TraceThreadId → TfToken → TraceEvent → σ

/-- Modelled from the spec: the per-event step of `Iterate`: `OnEvent` runs
only when `AcceptsCategory` holds for the category of the event. -/
def Visitor.visitEvent {σ : Type} (v : Visitor σ) (thread : TraceThreadId) (s : σ)
    (x : TfToken × TraceEvent) : σ :=
  if v.AcceptsCategory s x.2.GetCategory then v.OnEvent s thread x.1 x.2 else s

/-- Modelled from the spec: one thread group of `Iterate`: `OnBeginThread`,
the events in recorded order, `OnEndThread`. -/
def Visitor.visitThread {σ : Type} (v : Visitor σ) (s : σ)
    (g : TraceThreadId × List (TfToken × TraceEvent)) : σ :=
  v.OnEndThread (g.2.foldl (v.visitEvent g.1) (v.OnBeginThread s g.1)) g.1

/-- Modelled from the spec: the library's `TraceCollection::Iterate`:
`OnBeginCollection`, every thread group in turn, `OnEndCollection`. -/
def TraceCollection.Iterate {σ : Type} (c : TraceCollection) (v : Visitor σ) (s : σ) : σ :=
  v.OnEndCollection (c.foldl v.visitThread (v.OnBeginCollection s))

/-- The class `PerfReporter` as a `TraceCollection::Visitor`: its overrides. -/
def PerfReporter.visitor (mkId : String → TraceCategoryId) : Visitor PerfReporter where
  AcceptsCategory := PerfReporter.AcceptsCategory mkId
  OnBeginCollection := PerfReporter.OnBeginCollection
  OnEndCollection := PerfReporter.OnEndCollection
  OnBeginThread := PerfReporter.OnBeginThread
  OnEndThread := PerfReporter.OnEndThread
  OnEvent := PerfReporter.OnEvent

/-- The method `_OnCollection`: `notice.GetCollection()->Iterate(*this)`. -/
def PerfReporter._OnCollection (mkId : String → TraceCategoryId) (r : PerfReporter)
    (c : TraceCollection) : PerfReporter :=
  c.Iterate (PerfReporter.visitor mkId) r

/-! ## The scenario of `main` -/

/-- Modelled from the spec: the collection that `CreateCollection` publishes
in `main`: on one thread, the scope begin of `TestScope`, the delta `value1`
for `first_counter`, the scope end, and the delta `value2` for
`first_counter`, all recorded under `PerfCategory`. The `int` arguments are
converted to the `double` parameter of `RecordCounterDelta`. -/
def main_collection (mkId : String → TraceCategoryId) (value1 value2 : Int) : TraceCollection :=
  [("main",
    [("TestScope", ⟨EventType.Begin, PerfCategory.GetId mkId, Double.zero⟩),
     ("first_counter", ⟨EventType.CounterDelta, PerfCategory.GetId mkId, Double.ofInt value1⟩),
     ("TestScope", ⟨EventType.End, PerfCategory.GetId mkId, Double.zero⟩),
     ("first_counter", ⟨EventType.CounterDelta, PerfCategory.GetId mkId, Double.ofInt value2⟩)])]

/-- The five values `main` writes to `std::cout`, in the order of its statements. -/
structure MainOutput where
  first_has_counter : Bool
  first_value : Double
  first_equals_sum : Bool
  second_has_counter : Bool
  second_value : Double
  deriving DecidableEq

/-- The function `main`: a new reporter receives the collection, then the five
queries run one statement after the other on the same reporter. -/
def main (mkId : String → TraceCategoryId) : MainOutput :=
  let reporter := PerfReporter.new
  let first_counter := "first_counter"
  let second_counter := "second_counter"
  let value1 : Int := 1
  let value2 : Int := 3
  let reporter := reporter._OnCollection mkId (main_collection mkId value1 value2)
  let o1 := reporter.HasCounter first_counter
  let q2 := reporter.GetCounterValue first_counter
  let q3 := q2.2.GetCounterValue first_counter
  let o3 := q3.1.eq (Double.ofInt (value1 + value2))
  let o4 := q3.2.HasCounter second_counter
  let q5 := q3.2.GetCounterValue second_counter
  ⟨o1, q2.1, o3, o4, q5.1⟩

/-! ## Runs of callbacks and queries -/

/-- One call made on a reporter: an `OnEvent` callback or a `GetCounterValue` query. -/
inductive Call where
  | event (thread : TraceThreadId) (k : TfToken) (e : TraceEvent)
  | query (key : String)

/-- Whether a call is an `OnEvent` callback. -/
def Call.isEvent : Call → Bool
  | Call.event _ _ _ => true
  | Call.query _ => false

/-- Whether a call is an `OnEvent` callback with a counter delta of `-0.0`. -/
def Call.isNegZeroDelta : Call → Bool
  | Call.event _ _ e =>
    decide (e.GetType = EventType.CounterDelta ∧ e.GetCounterValue = Double.negZero)
  | Call.query _ => false

/-- The reporter after one call (the value a query returns is dropped). -/
def PerfReporter.call (r : PerfReporter) : Call → PerfReporter
  | Call.event thread k e => r.OnEvent thread k e
  | Call.query key => (r.GetCounterValue key).2

/-- The reporter after a sequence of calls, made in order. -/
def PerfReporter.calls (r : PerfReporter) (cs : List Call) : PerfReporter :=
  cs.foldl PerfReporter.call r

/-- The reporter after a sequence of `OnEvent` callbacks, made in order. -/
def PerfReporter.OnEvents (r : PerfReporter)
    (evs : List (TraceThreadId × TfToken × TraceEvent)) : PerfReporter :=
  evs.foldl (fun s x => s.OnEvent x.1 x.2.1 x.2.2) r

/-! ## Vocabulary of the statements -/

/-- Whether an event is a counter delta. -/
def isCounterDelta (x : TfToken × TraceEvent) : Bool :=
  decide (x.2.GetType = EventType.CounterDelta)

/-- A collection without its events of category `cat`. -/
def TraceCollection.withoutCategory (c : TraceCollection) (cat : TraceCategoryId) :
    TraceCollection :=
  c.map (fun g => (g.1, g.2.filter (fun x => x.2.GetCategory != cat)))

/-- The values of the counter deltas for `key` that the reporter accepts, in
traversal order. -/
def acceptedDeltas (mkId : String → TraceCategoryId) (key : String)
    (evs : List (TfToken × TraceEvent)) : List Double :=
  (evs.filter (fun x =>
      PerfReporter.AcceptsCategory mkId PerfReporter.new x.2.GetCategory
        && isCounterDelta x && decide (x.1 = key))).map
    (fun x => x.2.GetCounterValue)

/-- The per-event step of a traversal by a `PerfReporter`, without the thread id. -/
def PerfReporter.step (mkId : String → TraceCategoryId) (s : PerfReporter)
    (x : TfToken × TraceEvent) : PerfReporter :=
  if PerfReporter.AcceptsCategory mkId s x.2.GetCategory then s.OnEvent "" x.1 x.2 else s

/-! ## Lemmas on double arithmetic -/

namespace Double

theorem shiftFor_of_lt (fuel n : Nat) (h : n < 2 ^ 53) : shiftFor fuel n = 0 := by
  cases fuel with
  | zero => rfl
  | succ f =>
    unfold shiftFor
    rw [if_pos h]

theorem shiftFor_mul_two_pow (s : Nat) : ∀ (fuel m : Nat), 2 ^ 52 ≤ m → m < 2 ^ 53 → s ≤ fuel →
    shiftFor fuel (m * 2 ^ s) = s := by
  induction s with
  | zero =>
    intro fuel m _ h2 _
    simpa using shiftFor_of_lt fuel m h2
  | succ s ih =>
    intro fuel m h1 h2 hf
    cases fuel with
    | zero => omega
    | succ f =>
      have hge : ¬ m * 2 ^ (s + 1) < 2 ^ 53 := by
        have h3 : 2 ^ 52 * 2 ^ (s + 1) ≤ m * 2 ^ (s + 1) := Nat.mul_le_mul_right _ h1
        have h4 : (2 : Nat) ^ 53 ≤ 2 ^ 52 * 2 ^ (s + 1) := by
          rw [← pow_add]
          exact Nat.pow_le_pow_right (by norm_num) (by omega)
        omega
      have hdiv : m * 2 ^ (s + 1) / 2 = m * 2 ^ s := by
        rw [pow_succ, ← mul_assoc]
        exact Nat.mul_div_cancel _ (by norm_num)
      unfold shiftFor
      rw [if_neg hge, hdiv, ih f m h1 h2 (by omega)]

/-- The halving never runs out of fuel: with the magnitude itself as fuel, the
shifted magnitude fits 53 bits. -/
theorem shiftFor_enough_fuel (n : Nat) : n / 2 ^ shiftFor n n < 2 ^ 53 := by
  have h : ∀ (fuel m : Nat), m < 2 ^ (53 + fuel) → m / 2 ^ shiftFor fuel m < 2 ^ 53 := by
    intro fuel
    induction fuel with
    | zero =>
      intro m hm
      simpa [shiftFor] using hm
    | succ f ih =>
      intro m hm
      unfold shiftFor
      by_cases hlt : m < 2 ^ 53
      · rw [if_pos hlt]
        simpa using hlt
      · rw [if_neg hlt, pow_succ, Nat.mul_comm, ← Nat.div_div_eq_div_mul]
        apply ih
        have h2 : (2 : Nat) ^ (53 + (f + 1)) = 2 ^ (53 + f) * 2 := by
          rw [← Nat.add_assoc, pow_succ]
        omega
  apply h n n
  calc n < 2 ^ n := Nat.lt_two_pow n
    _ ≤ 2 ^ (53 + n) := Nat.pow_le_pow_right (by norm_num) (by omega)

theorem units_of_subnormal (b : Nat) (hE : b / 2 ^ 52 = 0) : units b = b := by
  have hb := Nat.div_add_mod b (2 ^ 52)
  unfold units significand
  rw [if_pos hE, hE, Nat.shiftLeft_eq]
  rw [hE] at hb
  simp only [Nat.zero_sub, pow_zero, mul_one]
  omega

theorem units_of_normal (b s : Nat) (hs : b / 2 ^ 52 = s + 1) :
    units b = (2 ^ 52 + b % 2 ^ 52) * 2 ^ s := by
  have hE : ¬ b / 2 ^ 52 = 0 := by omega
  unfold units significand
  rw [if_neg hE, hs, Nat.shiftLeft_eq, Nat.add_sub_cancel]

theorem roundUnits_of_lt (n : Nat) (h : n < 2 ^ 53) : roundUnits n = n := by
  unfold roundUnits
  simp only [shiftFor_of_lt n n h, Nat.shiftRight_zero, Nat.shiftLeft_zero, Nat.mod_one,
    Nat.zero_mul, Nat.zero_add, Nat.mul_zero]
  have hfalse : ¬ (0 > 1 ∨ (0 = 1 ∧ n % 2 = 1)) := by
    rintro (h0 | ⟨h0, _⟩) <;> omega
  rw [if_neg hfalse]

theorem roundUnits_mul_two_pow (m s : Nat) (h1 : 2 ^ 52 ≤ m) (h2 : m < 2 ^ 53) :
    roundUnits (m * 2 ^ s) = s * 2 ^ 52 + m := by
  have hpos : 0 < 2 ^ s := Nat.pos_of_ne_zero (by positivity)
  have hfuel : s ≤ m * 2 ^ s := by
    have h3 : s < 2 ^ s := Nat.lt_two_pow s
    have h4 : 1 * 2 ^ s ≤ m * 2 ^ s := Nat.mul_le_mul_right _ (by omega)
    omega
  unfold roundUnits
  simp only [shiftFor_mul_two_pow s _ m h1 h2 hfuel, Nat.shiftRight_eq_div_pow,
    Nat.shiftLeft_eq, Nat.one_mul, Nat.mul_mod_left, Nat.mul_div_cancel _ hpos, Nat.mul_zero]
  have hfalse : ¬ (0 > 2 ^ s ∨ (0 = 2 ^ s ∧ m % 2 = 1)) := by
    rintro (h0 | ⟨h0, _⟩) <;> omega
  rw [if_neg hfalse]

/-- Rounding the magnitude of an encoding gives the encoding back. -/
theorem roundUnits_units (b : Nat) : roundUnits (units b) = b := by
  have hb := Nat.div_add_mod b (2 ^ 52)
  have hF : b % 2 ^ 52 < 2 ^ 52 := Nat.mod_lt _ (by norm_num)
  by_cases hE : b / 2 ^ 52 = 0
  · rw [units_of_subnormal b hE]
    apply roundUnits_of_lt
    rw [hE] at hb
    have : (2 : Nat) ^ 52 < 2 ^ 53 := by norm_num
    omega
  · obtain ⟨s, hs⟩ : ∃ s, b / 2 ^ 52 = s + 1 := Nat.exists_eq_succ_of_ne_zero hE
    have h53 : (2 : Nat) ^ 53 = 2 ^ 52 + 2 ^ 52 := by norm_num
    rw [units_of_normal b s hs, roundUnits_mul_two_pow _ s (Nat.le_add_right _ _) (by omega)]
    rw [hs] at hb
    have h5 : 2 ^ 52 * (s + 1) = s * 2 ^ 52 + 2 ^ 52 := by ring
    omega

theorem units_eq_zero (b : Nat) (h : units b = 0) : b = 0 := by
  have h1 := roundUnits_units b
  rw [h] at h1
  rw [← h1]
  rfl

theorem ofUnits_units (neg : Bool) (b : Fin 0x7FF0000000000000) :
    ofUnits neg (units b.val) = finite neg b := by
  unfold ofUnits
  have h : roundUnits (units b.val) < 0x7FF0000000000000 := by
    rw [roundUnits_units]
    exact b.isLt
  rw [dif_pos h]
  congr 1
  exact Fin.ext (roundUnits_units b.val)

theorem add_finite (a b : Bool) (x y : Fin 0x7FF0000000000000) :
    add (finite a x) (finite b y) =
      if signed a (units x.val) + signed b (units y.val) = 0 then finite (a && b) ⟨0, by decide⟩
      else ofUnits (decide (signed a (units x.val) + signed b (units y.val) < 0))
        (signed a (units x.val) + signed b (units y.val)).natAbs := rfl

theorem units_zero : units 0 = 0 := by
  set_option maxRecDepth 100000 in decide

/-- Adding a double other than `-0.0` to `0.0` gives that double back. -/
theorem zero_add_of_ne_negZero (v : Double) (h : v ≠ negZero) : add zero v = v := by
  cases v with
  | nan => rfl
  | inf n => rfl
  | finite n b =>
    have hs0 : signed false (units (0 : Nat)) = 0 := by rw [units_zero]; rfl
    unfold zero
    rw [add_finite]
    show (if signed false (units 0) + signed n (units b.val) = 0 then _ else _) = _
    rw [hs0, Int.zero_add]
    by_cases hu : units b.val = 0
    · have hb : b = ⟨0, by decide⟩ := Fin.ext (units_eq_zero _ hu)
      subst hb
      cases n with
      | true => exact absurd rfl h
      | false =>
        have hz : signed false (units (0 : Nat)) = 0 := hs0
        show (if signed false (units 0) = 0 then _ else _) = _
        rw [if_pos hz]
        rfl
    · have hpos : (0 : Int) < (units b.val : Int) := by omega
      cases n with
      | true =>
        have hne : ¬ signed true (units b.val) = 0 := by
          unfold signed
          simp only [if_true]
          omega
        have hlt : signed true (units b.val) < 0 := by
          unfold signed
          simp only [if_true]
          omega
        have hab : (signed true (units b.val)).natAbs = units b.val := by
          unfold signed
          simp
        rw [if_neg hne, hab, decide_eq_true hlt, ofUnits_units]
      | false =>
        have hne : ¬ signed false (units b.val) = 0 := by
          unfold signed
          simp only [Bool.false_eq_true, if_false]
          omega
        have hlt : ¬ signed false (units b.val) < 0 := by
          unfold signed
          simp only [Bool.false_eq_true, if_false]
          omega
        have hab : (signed false (units b.val)).natAbs = units b.val := by
          unfold signed
          simp
        rw [if_neg hne, hab, decide_eq_false hlt, ofUnits_units]


theorem signed_natAbs (c : Bool) (n : Nat) : (signed c n).natAbs = n := by
  unfold signed
  cases c <;> simp

theorem signed_neg_iff (c : Bool) (n : Nat) (h : signed c n ≠ 0) :
    decide (signed c n < 0) = c := by
  unfold signed at h ⊢
  cases c with
  | true =>
    simp only [if_true] at h ⊢
    apply decide_eq_true
    omega
  | false =>
    simp only [Bool.false_eq_true, if_false] at h ⊢
    apply decide_eq_false
    omega

/-- The sum of two finite doubles whose exact sum is the nonzero double `z` is `z`. -/
theorem add_eq_of_units (a b c : Bool) (x y z : Fin 0x7FF0000000000000)
    (h : signed a (units x.val) + signed b (units y.val) = signed c (units z.val))
    (hne : signed c (units z.val) ≠ 0) :
    add (finite a x) (finite b y) = finite c z := by
  rw [add_finite, h, if_neg hne, signed_natAbs, signed_neg_iff c _ hne, ofUnits_units]

theorem signed_mul (c : Bool) (m k : Nat) : signed c (m * k) = signed c m * (k : Int) := by
  unfold signed
  cases c <;> simp

/-- The exact number of a finite double is its signed magnitude over `2 ^ 1074`. -/
theorem toRat_finite (c : Bool) (x : Fin 0x7FF0000000000000) :
    toRat (finite c x) = some ((signed c (units x.val) : ℚ) / 2 ^ 1074) := by
  have h : units x.val = significand x.val * 2 ^ (x.val / 2 ^ 52 - 1) := by
    unfold units
    rw [Nat.shiftLeft_eq]
  show some ((signed c (significand x.val) : ℚ) *
      2 ^ (((x.val / 2 ^ 52 - 1 : Nat) : Int) - 1074)) = _
  have e : (2 : ℚ) ^ (((x.val / 2 ^ 52 - 1 : Nat) : Int) - 1074) =
      2 ^ (x.val / 2 ^ 52 - 1) / 2 ^ 1074 := by
    rw [zpow_sub₀ (by norm_num : (2 : ℚ) ≠ 0), zpow_natCast, zpow_ofNat]
  rw [h, signed_mul, e]
  congr 1
  push_cast
  rw [mul_div_assoc]

theorem toRat_eq_some_iff (c : Bool) (x : Fin 0x7FF0000000000000) (i : Int) :
    toRat (finite c x) = some ((i : ℚ) / 2 ^ 1074) ↔ signed c (units x.val) = i := by
  rw [toRat_finite]
  have hpos : (2 : ℚ) ^ 1074 ≠ 0 := pow_ne_zero _ (by norm_num)
  constructor
  · intro h
    have h1 := Option.some.inj h
    have h2 : ((signed c (units x.val) : Int) : ℚ) = (i : ℚ) := by
      rw [div_left_inj' hpos] at h1
      exact h1
    exact_mod_cast h2
  · intro h
    rw [h]

/-- Double addition is exact whenever the exact sum is a double. -/
theorem toRat_add_of_exact (x y z : Double) (p q : ℚ) (hx : x.toRat = some p)
    (hy : y.toRat = some q) (hz : z.toRat = some (p + q)) :
    (x.add y).toRat = some (p + q) := by
  cases x with
  | nan => simp [toRat] at hx
  | inf _ => simp [toRat] at hx
  | finite a bx =>
    cases y with
    | nan => simp [toRat] at hy
    | inf _ => simp [toRat] at hy
    | finite b by_ =>
      cases z with
      | nan => simp [toRat] at hz
      | inf _ => simp [toRat] at hz
      | finite c bz =>
        rw [toRat_finite] at hx hy
        have hp := Option.some.inj hx
        have hq := Option.some.inj hy
        have hsum : p + q =
            (((signed a (units bx.val) + signed b (units by_.val) : Int)) : ℚ) / 2 ^ 1074 := by
          rw [← hp, ← hq]
          push_cast
          ring
        have hu : signed c (units bz.val) =
            signed a (units bx.val) + signed b (units by_.val) := by
          rw [hsum] at hz
          exact (toRat_eq_some_iff c bz _).mp hz
        by_cases h0 : signed c (units bz.val) = 0
        · rw [add_finite, ← hu, if_pos h0, toRat_finite]
          show some ((signed (a && b) (units 0) : ℚ) / 2 ^ 1074) = some (p + q)
          rw [hsum, ← hu, h0, units_zero]
          simp [signed]
        · rw [add_eq_of_units a b c bx by_ bz hu.symm h0, hz]

theorem add_one_three : add (ofInt 1) (ofInt 3) = ofInt 4 := by
  set_option maxRecDepth 100000 in decide

theorem add_three_two : add (ofInt 3) (ofInt 2) = ofInt 5 := by
  set_option maxRecDepth 100000 in decide

theorem gt_one_one : gt (ofInt 1) (ofInt 1) = false := by
  set_option maxRecDepth 100000 in decide

theorem gt_three_one : gt (ofInt 3) (ofInt 1) = true := by
  set_option maxRecDepth 100000 in decide

theorem eq_four_four : eq (ofInt 4) (ofInt 4) = true := by
  set_option maxRecDepth 100000 in decide

theorem ofInt_one : ofInt 1 = finite false ⟨0x3FF0000000000000, by decide⟩ := by
  set_option maxRecDepth 100000 in decide

theorem ofInt_two_pow_53 :
    ofInt 9007199254740992 = finite false ⟨0x4340000000000000, by decide⟩ := by
  set_option maxRecDepth 100000 in decide

/-- The double sum of `2 ^ 53` and `1` is `2 ^ 53`: the exact sum lies halfway
between two doubles and the tie goes to the even one. -/
theorem add_two_pow_53_one :
    add (ofInt 9007199254740992) (ofInt 1) = ofInt 9007199254740992 := by
  set_option maxRecDepth 100000 in decide

theorem ofInt_two : ofInt 2 = finite false ⟨0x4000000000000000, by decide⟩ := by
  set_option maxRecDepth 100000 in decide

theorem toRat_ofInt_two : (ofInt 2).toRat = some 2 := by
  rw [ofInt_two]
  norm_num [toRat, signed, significand]

theorem ofInt_three_ne_negZero : ofInt 3 ≠ negZero := by
  set_option maxRecDepth 100000 in decide

theorem toRat_ofInt_one : (ofInt 1).toRat = some 1 := by
  rw [ofInt_one]
  norm_num [toRat, signed, significand]

theorem toRat_ofInt_two_pow_53 : (ofInt 9007199254740992).toRat = some 9007199254740992 := by
  rw [ofInt_two_pow_53]
  norm_num [toRat, signed, significand]

theorem zero_add_negZero : add zero negZero = zero := by
  set_option maxRecDepth 100000 in decide

theorem zero_ne_negZero : zero ≠ negZero := by
  set_option maxRecDepth 100000 in decide

theorem accumulateAll_some (vs : List Double) (x : Double) :
    accumulateAll (some x) vs = some (vs.foldl add x) := by
  induction vs generalizing x with
  | nil => rfl
  | cons v rest ih =>
    unfold accumulateAll at ih ⊢
    rw [List.foldl_cons, List.foldl_cons]
    exact ih (x.add v)

theorem accumulateAll_none_getD (vs : List Double) :
    (accumulateAll none vs).getD zero = sum vs := by
  cases vs with
  | nil => rfl
  | cons v rest =>
    have h : accumulateAll none (v :: rest) = accumulateAll (some v) rest := rfl
    rw [h, accumulateAll_some]
    rfl

theorem accumulateAll_append (stored : Option Double) (a b : List Double) :
    accumulateAll stored (a ++ b) = accumulateAll (accumulateAll stored a) b := by
  unfold accumulateAll
  rw [List.foldl_append]

theorem sum_pair (a b : Double) : sum [a, b] = a.add b := rfl

end Double

attribute [irreducible] Double.ofInt

/-! ## Lookup lemmas for the table operations -/

theorem CounterTable.find_insert (m : CounterTable) (key : String) (value : Double)
    (k : String) :
    (m.insert key value).find k =
      if k = key ∧ m.find key = none then some value else m.find k := by
  unfold CounterTable.insert CounterTable.find
  cases h : m.lookup key with
  | none =>
    by_cases hk : k = key
    · simp [hk]
    · simp [hk]
  | some v => simp

theorem CounterTable.find_assign (m : CounterTable) (key : String) (value : Double)
    (k : String) :
    (m.assign key value).find k = if k = key then some value else m.find k := rfl

theorem CounterTable.index_fst (m : CounterTable) (key : String) :
    (m.index key).1 = (m.find key).getD Double.zero := by
  unfold CounterTable.index
  cases h : m.find key <;> simp

theorem CounterTable.find_index_snd (m : CounterTable) (key k : String) :
    (m.index key).2.find k =
      if k = key ∧ m.find key = none then some Double.zero else m.find k := by
  unfold CounterTable.index
  cases h : m.find key with
  | none => simp [CounterTable.find_insert, h]
  | some v => simp [h]

theorem CounterTable.index_snd_of_present (m : CounterTable) (key : String) (v : Double)
    (h : m.find key = some v) : (m.index key).2 = m := by
  unfold CounterTable.index
  simp [h]

/-! ## Lemmas on `OnEvent` and the queries -/

namespace PerfReporter

theorem OnEvent_of_not_delta (r : PerfReporter) (t : TraceThreadId) (k : TfToken)
    (e : TraceEvent) (h : e.GetType ≠ EventType.CounterDelta) : r.OnEvent t k e = r := by
  unfold OnEvent
  simp [h]

theorem OnEvent_thread_irrelevant (r : PerfReporter) (t t' : TraceThreadId) (k : TfToken)
    (e : TraceEvent) : r.OnEvent t k e = r.OnEvent t' k e := rfl

theorem find_OnEvent (r : PerfReporter) (t : TraceThreadId) (k : TfToken) (e : TraceEvent)
    (k' : String) :
    (r.OnEvent t k e).counters.find k' =
      if e.GetType = EventType.CounterDelta ∧ k' = k then
        some (Double.accumulate (r.counters.find k) e.GetCounterValue)
      else r.counters.find k' := by
  unfold OnEvent
  by_cases h : e.GetType = EventType.CounterDelta
  · cases hf : r.counters.find k with
    | none =>
      by_cases hk : k' = k
      · simp [h, hk, CounterTable.find_insert, hf, Double.accumulate]
      · simp [h, hk, CounterTable.find_insert, hf]
    | some v =>
      by_cases hk : k' = k
      · simp [h, hk, CounterTable.find_assign, hf, Double.accumulate]
      · simp [h, hk, CounterTable.find_assign, hf]
  · simp [h]

theorem GetCounterValue_fst (r : PerfReporter) (key : String) :
    (r.GetCounterValue key).1 = (r.counters.find key).getD Double.zero := by
  unfold GetCounterValue
  exact CounterTable.index_fst _ _

theorem find_GetCounterValue_snd (r : PerfReporter) (key k : String) :
    (r.GetCounterValue key).2.counters.find k =
      if k = key ∧ r.counters.find key = none then some Double.zero
      else r.counters.find k := by
  unfold GetCounterValue
  exact CounterTable.find_index_snd _ _ _

theorem GetCounterValue_snd_of_present (r : PerfReporter) (key : String)
    (h : r.HasCounter key = true) : (r.GetCounterValue key).2 = r := by
  unfold HasCounter at h
  obtain ⟨v, hv⟩ := Option.isSome_iff_exists.mp h
  unfold GetCounterValue
  simp [CounterTable.index_snd_of_present _ _ v hv]

/-- A query leaves every value that a later query returns as it was. -/
theorem value_query (r : PerfReporter) (q key : String) :
    ((r.GetCounterValue q).2.GetCounterValue key).1 = (r.GetCounterValue key).1 := by
  rw [GetCounterValue_fst, GetCounterValue_fst, find_GetCounterValue_snd]
  by_cases h : key = q ∧ r.counters.find q = none
  · obtain ⟨h1, h2⟩ := h
    subst h1
    simp [h2]
  · simp [h]

/-- Two reporters that report the same values still do so after the same
`OnEvent` call, when the delta is not `-0.0`. -/
theorem value_OnEvent_congr (r r' : PerfReporter) (t : TraceThreadId) (k : TfToken)
    (e : TraceEvent)
    (h : ∀ key : String, (r.GetCounterValue key).1 = (r'.GetCounterValue key).1)
    (hv : e.GetType = EventType.CounterDelta → e.GetCounterValue ≠ Double.negZero)
    (key : String) :
    ((r.OnEvent t k e).GetCounterValue key).1 = ((r'.OnEvent t k e).GetCounterValue key).1 := by
  have hk := h k
  have hkey := h key
  rw [GetCounterValue_fst, GetCounterValue_fst] at hk hkey
  rw [GetCounterValue_fst, GetCounterValue_fst, find_OnEvent, find_OnEvent]
  by_cases hd : e.GetType = EventType.CounterDelta ∧ key = k
  · rw [if_pos hd, if_pos hd]
    have hz := Double.zero_add_of_ne_negZero e.GetCounterValue (hv hd.1)
    cases h1 : r.counters.find k with
    | none =>
      cases h2 : r'.counters.find k with
      | none => rfl
      | some b =>
        rw [h1, h2] at hk
        have hb : b = Double.zero := hk.symm
        subst hb
        simp only [Option.getD_some, Double.accumulate]
        exact hz.symm
    | some a =>
      cases h2 : r'.counters.find k with
      | none =>
        rw [h1, h2] at hk
        have ha : a = Double.zero := hk
        subst ha
        simp only [Option.getD_some, Double.accumulate]
        exact hz
      | some b =>
        rw [h1, h2] at hk
        have hab : a = b := hk
        subst hab
        rfl
  · rw [if_neg hd, if_neg hd]
    exact hkey

end PerfReporter

/-! ## Traversal lemmas -/

theorem visitThread_eq_foldl (mkId : String → TraceCategoryId) (s : PerfReporter)
    (g : TraceThreadId × List (TfToken × TraceEvent)) :
    (PerfReporter.visitor mkId).visitThread s g = g.2.foldl (PerfReporter.step mkId) s := rfl

theorem foldl_visitThread (mkId : String → TraceCategoryId) (c : TraceCollection)
    (s : PerfReporter) :
    c.foldl (PerfReporter.visitor mkId).visitThread s =
      c.events.foldl (PerfReporter.step mkId) s := by
  induction c generalizing s with
  | nil => rfl
  | cons g rest ih =>
    simp only [List.foldl_cons, TraceCollection.events, List.map_cons, List.flatten_cons,
      List.foldl_append]
    rw [ih, visitThread_eq_foldl]
    rfl

theorem OnCollection_eq_foldl (mkId : String → TraceCategoryId) (r : PerfReporter)
    (c : TraceCollection) :
    r._OnCollection mkId c = c.events.foldl (PerfReporter.step mkId) r := by
  unfold PerfReporter._OnCollection TraceCollection.Iterate
  exact foldl_visitThread mkId c r

theorem events_append (a b : TraceCollection) :
    TraceCollection.events (a ++ b) = a.events ++ b.events := by
  simp [TraceCollection.events]

theorem events_withoutCategory (c : TraceCollection) (cat : TraceCategoryId) :
    (c.withoutCategory cat).events = c.events.filter (fun x => x.2.GetCategory != cat) := by
  induction c with
  | nil => rfl
  | cons g rest ih =>
    simp only [TraceCollection.withoutCategory, TraceCollection.events, List.map_cons,
      List.flatten_cons, List.filter_append] at ih ⊢
    rw [ih]

/-- Events on which the step does nothing can be dropped from a traversal. -/
theorem foldl_step_filter (mkId : String → TraceCategoryId) (p : TfToken × TraceEvent → Bool)
    (hp : ∀ (s : PerfReporter) (x : TfToken × TraceEvent),
      p x = false → PerfReporter.step mkId s x = s)
    (evs : List (TfToken × TraceEvent)) (s : PerfReporter) :
    (evs.filter p).foldl (PerfReporter.step mkId) s = evs.foldl (PerfReporter.step mkId) s := by
  induction evs generalizing s with
  | nil => rfl
  | cons x rest ih =>
    cases hx : p x with
    | true => simp [List.filter_cons, hx, ih]
    | false => simp [List.filter_cons, hx, ih, hp s x hx]

theorem step_of_not_delta (mkId : String → TraceCategoryId) (s : PerfReporter)
    (x : TfToken × TraceEvent) (h : isCounterDelta x = false) :
    PerfReporter.step mkId s x = s := by
  have h' : x.2.GetType ≠ EventType.CounterDelta := by simpa [isCounterDelta] using h
  unfold PerfReporter.step
  split
  · exact PerfReporter.OnEvent_of_not_delta s "" x.1 x.2 h'
  · rfl

theorem acceptedDeltas_cons (mkId : String → TraceCategoryId) (key : String)
    (x : TfToken × TraceEvent) (evs : List (TfToken × TraceEvent)) :
    acceptedDeltas mkId key (x :: evs) = acceptedDeltas mkId key [x] ++ acceptedDeltas mkId key evs := by
  unfold acceptedDeltas
  rw [← List.map_append, ← List.filter_append]
  rfl

theorem acceptedDeltas_append (mkId : String → TraceCategoryId) (key : String)
    (a b : List (TfToken × TraceEvent)) :
    acceptedDeltas mkId key (a ++ b) = acceptedDeltas mkId key a ++ acceptedDeltas mkId key b := by
  unfold acceptedDeltas
  rw [List.filter_append, List.map_append]

theorem find_step (mkId : String → TraceCategoryId) (s : PerfReporter)
    (x : TfToken × TraceEvent) (key : String) :
    (PerfReporter.step mkId s x).counters.find key =
      Double.accumulateAll (s.counters.find key) (acceptedDeltas mkId key [x]) := by
  unfold PerfReporter.step acceptedDeltas isCounterDelta Double.accumulateAll
  by_cases ha : PerfReporter.AcceptsCategory mkId s x.2.GetCategory = true
  · have ha' : PerfReporter.AcceptsCategory mkId PerfReporter.new x.2.GetCategory = true := ha
    rw [if_pos ha, PerfReporter.find_OnEvent]
    by_cases hd : x.2.GetType = EventType.CounterDelta
    · by_cases hk : x.1 = key
      · subst hk
        simp [List.filter_cons, ha', hd]
      · have hk' : ¬ key = x.1 := fun h => hk h.symm
        simp [List.filter_cons, ha', hd, hk, hk']
    · simp [List.filter_cons, ha', hd]
  · have ha' : PerfReporter.AcceptsCategory mkId PerfReporter.new x.2.GetCategory = false := by
      simpa using ha
    rw [if_neg ha]
    simp [List.filter_cons, ha']

/-- What a key holds after a traversal: what it held before, with the accepted
deltas for the key accumulated in traversal order. -/
theorem find_foldl_step (mkId : String → TraceCategoryId) (evs : List (TfToken × TraceEvent))
    (s : PerfReporter) (key : String) :
    (evs.foldl (PerfReporter.step mkId) s).counters.find key =
      Double.accumulateAll (s.counters.find key) (acceptedDeltas mkId key evs) := by
  induction evs generalizing s with
  | nil => rfl
  | cons x rest ih =>
    rw [List.foldl_cons, ih, find_step, acceptedDeltas_cons mkId key x rest,
      Double.accumulateAll_append]

theorem acceptedDeltas_of_deltas (mkId : String → TraceCategoryId) (cat : TraceCategoryId)
    (hcat : PerfReporter.AcceptsCategory mkId PerfReporter.new cat = true) (key : TfToken)
    (vs : List Double) :
    acceptedDeltas mkId key
      (vs.map (fun v => (key, (⟨EventType.CounterDelta, cat, v⟩ : TraceEvent)))) = vs := by
  induction vs with
  | nil => rfl
  | cons v rest ih =>
    rw [List.map_cons, acceptedDeltas_cons, ih]
    simp [acceptedDeltas, isCounterDelta, TraceEvent.GetCategory, TraceEvent.GetType,
      TraceEvent.GetCounterValue, hcat]

/-! ## Presence of keys along runs -/

theorem HasCounter_OnEvent_of_HasCounter (r : PerfReporter) (t : TraceThreadId) (k : TfToken)
    (e : TraceEvent) (key : String) (h : r.HasCounter key = true) :
    (r.OnEvent t k e).HasCounter key = true := by
  unfold PerfReporter.HasCounter at h ⊢
  rw [PerfReporter.find_OnEvent]
  split
  · rfl
  · exact h

theorem HasCounter_OnEvents_of_HasCounter (evs : List (TraceThreadId × TfToken × TraceEvent))
    (r : PerfReporter) (key : String) (h : r.HasCounter key = true) :
    (r.OnEvents evs).HasCounter key = true := by
  induction evs generalizing r with
  | nil => exact h
  | cons x rest ih =>
    exact ih (r.OnEvent x.1 x.2.1 x.2.2) (HasCounter_OnEvent_of_HasCounter r _ _ _ key h)

/-- A key that no counter delta of a run carries stays absent. -/
theorem find_OnEvents_of_unseen (evs : List (TraceThreadId × TfToken × TraceEvent))
    (r : PerfReporter) (key : String) (h : r.counters.find key = none)
    (hunseen : ∀ x ∈ evs, x.2.2.GetType = EventType.CounterDelta → x.2.1 ≠ key) :
    (r.OnEvents evs).counters.find key = none := by
  induction evs generalizing r with
  | nil => exact h
  | cons x rest ih =>
    apply ih (r.OnEvent x.1 x.2.1 x.2.2)
    · rw [PerfReporter.find_OnEvent]
      have hx := hunseen x (List.mem_cons_self _ _)
      by_cases hd : x.2.2.GetType = EventType.CounterDelta
      · have hne : ¬ key = x.2.1 := fun hk => hx hd hk.symm
        simp [hne, h]
      · simp [hd, h]
    · intro y hy
      exact hunseen y (List.mem_cons_of_mem _ hy)

/-! ## Queries interleaved with callbacks -/

theorem value_call (r r' : PerfReporter) (c : Call)
    (h : ∀ key : String, (r.GetCounterValue key).1 = (r'.GetCounterValue key).1)
    (hc : c.isNegZeroDelta = false) :
    ∀ key : String,
      ((r.call c).GetCounterValue key).1 =
        ((if c.isEvent then r'.call c else r').GetCounterValue key).1 := by
  intro key
  cases c with
  | event t k e =>
    simp only [PerfReporter.call, Call.isEvent, if_true]
    apply PerfReporter.value_OnEvent_congr r r' t k e h
    intro hd hz
    simp [Call.isNegZeroDelta, hd, hz] at hc
  | query q =>
    simp only [PerfReporter.call, Call.isEvent]
    rw [PerfReporter.value_query, h]
    rfl

theorem value_calls (cs : List Call) (r r' : PerfReporter)
    (h : ∀ key : String, (r.GetCounterValue key).1 = (r'.GetCounterValue key).1)
    (hcs : ∀ c ∈ cs, c.isNegZeroDelta = false) :
    ∀ key : String,
      ((r.calls cs).GetCounterValue key).1 =
        ((r'.calls (cs.filter Call.isEvent)).GetCounterValue key).1 := by
  induction cs generalizing r r' with
  | nil => exact h
  | cons c rest ih =>
    have hstep := value_call r r' c h (hcs c (List.mem_cons_self _ _))
    have hrest : ∀ c' ∈ rest, c'.isNegZeroDelta = false :=
      fun c' hc' => hcs c' (List.mem_cons_of_mem _ hc')
    cases hc : c.isEvent with
    | true =>
      rw [hc] at hstep
      simp only [List.filter_cons, hc, if_true, PerfReporter.calls, List.foldl_cons]
      exact ih _ _ hstep hrest
    | false =>
      rw [hc] at hstep
      simp only [List.filter_cons, hc, PerfReporter.calls, List.foldl_cons]
      exact ih _ _ hstep hrest

/-- The value a new reporter reports after one collection: the double sum of
the accepted deltas for the key, in traversal order. -/
theorem value_OnCollection_new (mkId : String → TraceCategoryId) (c : TraceCollection)
    (key : String) :
    ((PerfReporter.new._OnCollection mkId c).GetCounterValue key).1 =
      Double.sum (acceptedDeltas mkId key c.events) := by
  rw [PerfReporter.GetCounterValue_fst, OnCollection_eq_foldl, find_foldl_step]
  exact Double.accumulateAll_none_getD _

theorem exactSum_two_pow_53_one :
    Double.exactSum [Double.ofInt 9007199254740992, Double.ofInt 1] =
      some 9007199254740993 := by
  simp only [Double.exactSum, Double.toRat_ofInt_two_pow_53, Double.toRat_ofInt_one]
  norm_num

/-! ## The claims -/

/-- C1 (additivity, amended): when a newly constructed reporter is driven over
one collection whose events are the counter deltas `v1 .. vn` for one key
under an accepted category, in recording order, `GetCounterValue` of that key
returns their double sum in recording order, `((v1 + v2) + v3) + ...` with
every partial sum rounded as `+=` rounds it, and `0.0` for no delta. -/
theorem additivity (mkId : String → TraceCategoryId) (cat : TraceCategoryId)
    (hcat : PerfReporter.AcceptsCategory mkId PerfReporter.new cat = true)
    (key : TfToken) (vs : List Double) (c : TraceCollection)
    (hc : c.events = vs.map (fun v => (key, (⟨EventType.CounterDelta, cat, v⟩ : TraceEvent)))) :
    ((PerfReporter.new._OnCollection mkId c).GetCounterValue key).1 = Double.sum vs := by
  rw [value_OnCollection_new, hc]
  rw [acceptedDeltas_of_deltas mkId cat hcat]

/-- Witness of C1: two deltas `1` and `3` for the key `k` give the value `4`. -/
theorem additivity_witness :
    PerfReporter.AcceptsCategory (fun _ => 7) PerfReporter.new 7 = true ∧
    TraceCollection.events
        [("t", [("k", (⟨EventType.CounterDelta, 7, Double.ofInt 1⟩ : TraceEvent)),
                ("k", (⟨EventType.CounterDelta, 7, Double.ofInt 3⟩ : TraceEvent))])] =
      [Double.ofInt 1, Double.ofInt 3].map
        (fun v => ("k", (⟨EventType.CounterDelta, 7, v⟩ : TraceEvent))) ∧
    ((PerfReporter.new._OnCollection (fun _ => 7)
        [("t", [("k", (⟨EventType.CounterDelta, 7, Double.ofInt 1⟩ : TraceEvent)),
                ("k", (⟨EventType.CounterDelta, 7, Double.ofInt 3⟩ : TraceEvent))])]).GetCounterValue
        "k").1 = Double.ofInt 4 :=
  ⟨rfl, rfl,
    (additivity (fun _ => 7) 7 rfl "k" [Double.ofInt 1, Double.ofInt 3]
      [("t", [("k", (⟨EventType.CounterDelta, 7, Double.ofInt 1⟩ : TraceEvent)),
              ("k", (⟨EventType.CounterDelta, 7, Double.ofInt 3⟩ : TraceEvent))])] rfl).trans
      ((Double.sum_pair _ _).trans Double.add_one_three)⟩

/-- Counterexample to C1 as stated: the deltas `2 ^ 53` and `1` for the key `k`
under an accepted category have the exact sum `2 ^ 53 + 1`, and
`GetCounterValue` returns the double `2 ^ 53`. -/
theorem additivity_exact_sum_counterexample :
    PerfReporter.AcceptsCategory (fun _ => 7) PerfReporter.new 7 = true ∧
    Double.exactSum [Double.ofInt 9007199254740992, Double.ofInt 1] =
      some 9007199254740993 ∧
    (((PerfReporter.new._OnCollection (fun _ => 7)
        [("t", [("k", (⟨EventType.CounterDelta, 7, Double.ofInt 9007199254740992⟩ :
                  TraceEvent)),
                ("k", (⟨EventType.CounterDelta, 7, Double.ofInt 1⟩ :
                  TraceEvent))])]).GetCounterValue "k").1).toRat =
      some 9007199254740992 := by
  refine ⟨rfl, exactSum_two_pow_53_one, ?_⟩
  rw [value_OnCollection_new]
  have h := acceptedDeltas_of_deltas (fun _ => 7) 7 rfl "k"
    [Double.ofInt 9007199254740992, Double.ofInt 1]
  have hsum : Double.sum [Double.ofInt 9007199254740992, Double.ofInt 1] =
      Double.ofInt 9007199254740992 := (Double.sum_pair _ _).trans Double.add_two_pow_53_one
  have hev : TraceCollection.events
      [("t", [("k", (⟨EventType.CounterDelta, 7, Double.ofInt 9007199254740992⟩ :
                TraceEvent)),
              ("k", (⟨EventType.CounterDelta, 7, Double.ofInt 1⟩ : TraceEvent))])] =
      [Double.ofInt 9007199254740992, Double.ofInt 1].map
        (fun v => ("k", (⟨EventType.CounterDelta, 7, v⟩ : TraceEvent))) := rfl
  rw [hev, h, hsum, Double.toRat_ofInt_two_pow_53]

/-- C3 (missing-key default): for a key that is absent from the counter table,
`GetCounterValue` returns `0` and `HasCounter` returns `false`; both are plain
values of total functions. -/
theorem missing_key_default (r : PerfReporter) (key : String)
    (h : r.counters.find key = none) :
    (r.GetCounterValue key).1 = Double.zero ∧ r.HasCounter key = false := by
  constructor
  · rw [PerfReporter.GetCounterValue_fst, h]
    rfl
  · unfold PerfReporter.HasCounter
    rw [h]
    rfl

/-- Witness of C3: the key `second_counter` on a new reporter. -/
theorem missing_key_default_witness :
    PerfReporter.new.counters.find "second_counter" = none ∧
    (PerfReporter.new.GetCounterValue "second_counter").1 = Double.zero ∧
    PerfReporter.new.HasCounter "second_counter" = false :=
  ⟨rfl, missing_key_default PerfReporter.new "second_counter" rfl⟩

/-- C4 (postcondition of `OnEvent`, amended): an event that is not a counter
delta leaves the reporter as it was; a counter delta `v` for an absent key
stores exactly `v`; a counter delta `v` for a key holding `old` stores the
double sum of `old` and `v`, which is the exact sum whenever that is a double.
The test `v > 1` decides only whether one more line is printed: the table that
is stored is the same on both sides of it. -/
theorem OnEvent_postcondition (r : PerfReporter) (t : TraceThreadId) (k : TfToken)
    (e : TraceEvent) :
    (e.GetType ≠ EventType.CounterDelta → r.OnEvent t k e = r) ∧
    (e.GetType = EventType.CounterDelta → r.counters.find k = none →
      (r.OnEvent t k e).counters.find k = some e.GetCounterValue) ∧
    (∀ old : Double, e.GetType = EventType.CounterDelta → r.counters.find k = some old →
      (r.OnEvent t k e).counters.find k = some (old.add e.GetCounterValue) ∧
      ∀ (p q : ℚ) (z : Double), old.toRat = some p → e.GetCounterValue.toRat = some q →
        z.toRat = some (p + q) → (old.add e.GetCounterValue).toRat = some (p + q)) ∧
    (e.GetType = EventType.CounterDelta →
      (r.OnEvent t k e).counters =
        (match r.counters.find k with
          | none => r.counters.insert k e.GetCounterValue
          | some old => r.counters.assign k (old.add e.GetCounterValue)) ∧
      (r.OnEvent t k e).printed =
        r.printed ++ (if e.GetCounterValue.gt (Double.ofInt 1) then
            [Printed.greaterThanOne e.GetCounterValue]
          else []) ++ [Printed.counterEvent k e.GetCounterValue]) := by
  refine ⟨PerfReporter.OnEvent_of_not_delta r t k e, ?_, ?_, ?_⟩
  · intro hd hf
    rw [PerfReporter.find_OnEvent, hf]
    simp [hd, Double.accumulate]
  · intro old hd hf
    constructor
    · rw [PerfReporter.find_OnEvent, hf]
      simp [hd, Double.accumulate]
    · intro p q z hp hq hz
      exact Double.toRat_add_of_exact old e.GetCounterValue z p q hp hq hz
  · intro hd
    unfold PerfReporter.OnEvent
    cases hf : r.counters.find k with
    | none =>
      by_cases hv : e.GetCounterValue.gt (Double.ofInt 1) = true
      · simp [hd, hv, hf]
      · simp [hd, hv, hf]
    | some old =>
      by_cases hv : e.GetCounterValue.gt (Double.ofInt 1) = true
      · simp [hd, hv, hf]
      · simp [hd, hv, hf]

/-- Witness of C4: on a new reporter a scope begin changes nothing and a delta
`3` for `k` stores `3`; a further delta `2` for `k` stores `3 + 2`, the double
`5`; and the double sum of `1` and `1` is exact, `2` being a double. -/
theorem OnEvent_postcondition_witness :
    PerfReporter.new.OnEvent "t" "k" ⟨EventType.Begin, 7, Double.zero⟩ = PerfReporter.new ∧
    (PerfReporter.new.OnEvent "t" "k" ⟨EventType.CounterDelta, 7, Double.ofInt 3⟩).counters.find
      "k" = some (Double.ofInt 3) ∧
    ((PerfReporter.new.OnEvent "t" "k" ⟨EventType.CounterDelta, 7, Double.ofInt 3⟩).OnEvent "t"
        "k" ⟨EventType.CounterDelta, 7, Double.ofInt 2⟩).counters.find "k" =
      some (Double.ofInt 5) ∧
    (PerfReporter.new.OnEvent "t" "k" ⟨EventType.CounterDelta, 7, Double.ofInt 3⟩).printed =
      [Printed.greaterThanOne (Double.ofInt 3), Printed.counterEvent "k" (Double.ofInt 3)] ∧
    ((Double.ofInt 1).add (Double.ofInt 1)).toRat = some (1 + 1) :=
  ⟨(OnEvent_postcondition PerfReporter.new "t" "k" ⟨EventType.Begin, 7, Double.zero⟩).1
      (by decide),
   (OnEvent_postcondition PerfReporter.new "t" "k"
      ⟨EventType.CounterDelta, 7, Double.ofInt 3⟩).2.1 rfl rfl,
   (((OnEvent_postcondition
      (PerfReporter.new.OnEvent "t" "k" ⟨EventType.CounterDelta, 7, Double.ofInt 3⟩)
      "t" "k" ⟨EventType.CounterDelta, 7, Double.ofInt 2⟩).2.2.1 (Double.ofInt 3) rfl
      ((OnEvent_postcondition PerfReporter.new "t" "k"
        ⟨EventType.CounterDelta, 7, Double.ofInt 3⟩).2.1 rfl rfl)).1).trans
      (congrArg some Double.add_three_two),
   by
    have h := ((OnEvent_postcondition PerfReporter.new "t" "k"
      ⟨EventType.CounterDelta, 7, Double.ofInt 3⟩).2.2.2 rfl).2
    rw [h]
    simp [TraceEvent.GetCounterValue, PerfReporter.new, Double.gt_three_one],
   ((OnEvent_postcondition
      (PerfReporter.new.OnEvent "t" "k" ⟨EventType.CounterDelta, 7, Double.ofInt 1⟩)
      "t" "k" ⟨EventType.CounterDelta, 7, Double.ofInt 1⟩).2.2.1 (Double.ofInt 1) rfl
      ((OnEvent_postcondition PerfReporter.new "t" "k"
        ⟨EventType.CounterDelta, 7, Double.ofInt 1⟩).2.1 rfl rfl)).2 1 1 (Double.ofInt 2)
      Double.toRat_ofInt_one Double.toRat_ofInt_one
      (by rw [Double.toRat_ofInt_two]; norm_num)⟩

/-- Counterexample to C4 as stated, clause 3: the key `k` holds `2 ^ 53` and a
counter delta `1` arrives; the exact sum is `2 ^ 53 + 1`, and the value stored
afterwards is the double `2 ^ 53`. -/
theorem OnEvent_exact_sum_counterexample :
    (PerfReporter.new.OnEvent "t" "k"
        ⟨EventType.CounterDelta, 7, Double.ofInt 9007199254740992⟩).counters.find "k" =
      some (Double.ofInt 9007199254740992) ∧
    Double.exactSum [Double.ofInt 9007199254740992, Double.ofInt 1] =
      some 9007199254740993 ∧
    (((PerfReporter.new.OnEvent "t" "k"
        ⟨EventType.CounterDelta, 7, Double.ofInt 9007199254740992⟩).OnEvent "t" "k"
        ⟨EventType.CounterDelta, 7, Double.ofInt 1⟩).counters.find "k").bind Double.toRat =
      some 9007199254740992 := by
  have h1 : (PerfReporter.new.OnEvent "t" "k"
      ⟨EventType.CounterDelta, 7, Double.ofInt 9007199254740992⟩).counters.find "k" =
      some (Double.ofInt 9007199254740992) := by
    rw [PerfReporter.find_OnEvent]
    rfl
  refine ⟨h1, exactSum_two_pow_53_one, ?_⟩
  rw [PerfReporter.find_OnEvent, h1]
  show (some (Double.add (Double.ofInt 9007199254740992) (Double.ofInt 1))).bind
      Double.toRat = _
  rw [Double.add_two_pow_53_one]
  exact Double.toRat_ofInt_two_pow_53

/-- C8 (scenario of `main`): after the collection with the scope begin, the
delta `1` for `first_counter`, the scope end and the delta `3` for
`first_counter`, the queries of `main` give `true`, `4`, equality with
`value1 + value2`, then `false` and `0` for `second_counter`. -/
theorem main_scenario (mkId : String → TraceCategoryId) :
    main mkId = ⟨true, Double.ofInt 4, true, false, Double.zero⟩ := by
  have hacc : ∀ s, PerfReporter.AcceptsCategory mkId s (PerfCategory.GetId mkId) = true := by
    intro s
    simp [PerfReporter.AcceptsCategory]
  have hrun : PerfReporter.new._OnCollection mkId (main_collection mkId 1 3) =
      ⟨⟨fun k => if k = "first_counter" then some (Double.ofInt 4) else none⟩,
        [Printed.counterEvent "first_counter" (Double.ofInt 1),
          Printed.greaterThanOne (Double.ofInt 3),
          Printed.counterEvent "first_counter" (Double.ofInt 3)]⟩ := by
    rw [OnCollection_eq_foldl]
    simp only [main_collection, TraceCollection.events, List.map_cons, List.map_nil,
      List.flatten_cons, List.flatten_nil, List.append_nil, List.foldl_cons, List.foldl_nil,
      PerfReporter.step, TraceEvent.GetCategory, hacc, if_true]
    ext1
    · ext1
      funext k'
      have h := PerfReporter.find_OnEvent
      simp only [CounterTable.find] at h
      simp only [h]
      by_cases hk : k' = "first_counter"
      · simp [hk, TraceEvent.GetType, TraceEvent.GetCounterValue, PerfReporter.new,
          CounterTable.empty, Double.accumulate, Double.add_one_three]
      · simp [hk, TraceEvent.GetType, TraceEvent.GetCounterValue, PerfReporter.new,
          CounterTable.empty]
    · simp [PerfReporter.OnEvent, TraceEvent.GetType, TraceEvent.GetCounterValue,
        PerfReporter.new, CounterTable.empty, CounterTable.find, CounterTable.insert,
        CounterTable.assign, Double.gt_one_one, Double.gt_three_one]
  unfold main
  simp only [hrun]
  simp [PerfReporter.HasCounter, PerfReporter.GetCounterValue, CounterTable.index,
    CounterTable.find, CounterTable.insert, Double.eq_four_four]

/-- C2 (the queries as read accessors), evaluated on a new reporter:
`HasCounter "second_counter"` is `false`; the call
`GetCounterValue "second_counter"` returns `0` and leaves a table that differs
from the one before, in which `HasCounter "second_counter"` is `true`. -/
theorem GetCounterValue_inserts_missing_key :
    PerfReporter.new.HasCounter "second_counter" = false ∧
    (PerfReporter.new.GetCounterValue "second_counter").1 = Double.zero ∧
    (PerfReporter.new.GetCounterValue "second_counter").2.HasCounter "second_counter" = true ∧
    (PerfReporter.new.GetCounterValue "second_counter").2.counters ≠
      PerfReporter.new.counters := by
  refine ⟨rfl, rfl, ?_, ?_⟩
  · unfold PerfReporter.HasCounter
    rw [PerfReporter.find_GetCounterValue_snd]
    simp [PerfReporter.new, CounterTable.empty, CounterTable.find]
  · intro h
    have h1 := PerfReporter.find_GetCounterValue_snd PerfReporter.new "second_counter"
      "second_counter"
    rw [h] at h1
    simp [PerfReporter.new, CounterTable.empty, CounterTable.find] at h1

/-- C5 (category filtering): `AcceptsCategory` holds exactly for the id of
`PerfCategory`; so for a category with another id, a traversal leaves the same
counter table as the traversal of the collection without the events of that
category. -/
theorem category_filtering (mkId : String → TraceCategoryId) (cat : TraceCategoryId)
    (hcat : cat ≠ PerfCategory.GetId mkId) (r : PerfReporter) (c : TraceCollection) :
    (∀ (s : PerfReporter) (id : TraceCategoryId),
      PerfReporter.AcceptsCategory mkId s id = true ↔ id = PerfCategory.GetId mkId) ∧
    PerfReporter.AcceptsCategory mkId r cat = false ∧
    (r._OnCollection mkId c).counters =
      (r._OnCollection mkId (c.withoutCategory cat)).counters := by
  have hiff : ∀ (s : PerfReporter) (id : TraceCategoryId),
      PerfReporter.AcceptsCategory mkId s id = true ↔ id = PerfCategory.GetId mkId := by
    intro s id
    simp [PerfReporter.AcceptsCategory]
  have hrej : ∀ s : PerfReporter, PerfReporter.AcceptsCategory mkId s cat = false := by
    intro s
    simp [PerfReporter.AcceptsCategory, hcat]
  refine ⟨hiff, hrej r, ?_⟩
  rw [OnCollection_eq_foldl, OnCollection_eq_foldl, events_withoutCategory, foldl_step_filter]
  intro s x hx
  have hx' : x.2.GetCategory = cat := by simpa using hx
  unfold PerfReporter.step
  rw [hx', hrej s]
  rfl

/-- Witness of C5: with `PerfCategory` at id `7`, three deltas of category `9`
around one delta of category `7` leave the table of the single delta. -/
theorem category_filtering_witness :
    (9 : TraceCategoryId) ≠ PerfCategory.GetId (fun _ => 7) ∧
    TraceCollection.withoutCategory
        [("t", [("k", (⟨EventType.CounterDelta, 9, Double.ofInt 5⟩ : TraceEvent)),
                ("k", (⟨EventType.CounterDelta, 7, Double.ofInt 1⟩ : TraceEvent)),
                ("k", (⟨EventType.CounterDelta, 9, Double.ofInt 5⟩ : TraceEvent)),
                ("j", (⟨EventType.CounterDelta, 9, Double.ofInt 2⟩ : TraceEvent))])] 9 =
      [("t", [("k", (⟨EventType.CounterDelta, 7, Double.ofInt 1⟩ : TraceEvent))])] ∧
    (PerfReporter.new._OnCollection (fun _ => 7)
        [("t", [("k", (⟨EventType.CounterDelta, 9, Double.ofInt 5⟩ : TraceEvent)),
                ("k", (⟨EventType.CounterDelta, 7, Double.ofInt 1⟩ : TraceEvent)),
                ("k", (⟨EventType.CounterDelta, 9, Double.ofInt 5⟩ : TraceEvent)),
                ("j", (⟨EventType.CounterDelta, 9, Double.ofInt 2⟩ : TraceEvent))])]).counters =
      (PerfReporter.new._OnCollection (fun _ => 7)
        (TraceCollection.withoutCategory
          [("t", [("k", (⟨EventType.CounterDelta, 9, Double.ofInt 5⟩ : TraceEvent)),
                  ("k", (⟨EventType.CounterDelta, 7, Double.ofInt 1⟩ : TraceEvent)),
                  ("k", (⟨EventType.CounterDelta, 9, Double.ofInt 5⟩ : TraceEvent)),
                  ("j", (⟨EventType.CounterDelta, 9, Double.ofInt 2⟩ : TraceEvent))])]
          9)).counters :=
  ⟨by decide, rfl,
    (category_filtering (fun _ => 7) 9 (by decide) PerfReporter.new _).2.2⟩

/-- C6 (cross-collection accumulation, amended): two collections delivered one
after the other leave the reporter that the single delivery of the first
followed by the second leaves; nothing is reset in between, so every key holds
what it held before with the accepted deltas of both collections accumulated
in traversal order by double addition, and on a new reporter
`GetCounterValue` returns their double sum in that order. -/
theorem cross_collection_accumulation (mkId : String → TraceCategoryId) (r : PerfReporter)
    (a b : TraceCollection) :
    (r._OnCollection mkId a)._OnCollection mkId b = r._OnCollection mkId (a ++ b) ∧
    (∀ key : String,
      ((r._OnCollection mkId a)._OnCollection mkId b).counters.find key =
        Double.accumulateAll (r.counters.find key)
          (acceptedDeltas mkId key a.events ++ acceptedDeltas mkId key b.events)) ∧
    (∀ key : String,
      (((PerfReporter.new._OnCollection mkId a)._OnCollection mkId b).GetCounterValue key).1 =
        Double.sum (acceptedDeltas mkId key a.events ++ acceptedDeltas mkId key b.events)) := by
  have h1 : ∀ s : PerfReporter,
      (s._OnCollection mkId a)._OnCollection mkId b = s._OnCollection mkId (a ++ b) := by
    intro s
    simp only [OnCollection_eq_foldl, events_append, List.foldl_append]
  refine ⟨h1 r, ?_, ?_⟩
  · intro key
    rw [h1, OnCollection_eq_foldl, find_foldl_step, events_append, acceptedDeltas_append]
  · intro key
    rw [h1, value_OnCollection_new, events_append, acceptedDeltas_append]

/-- Counterexample to C6 as stated: a new reporter receives a collection with
the delta `2 ^ 53` for `k` and then a collection with the delta `1` for `k`;
the exact sum of the accepted deltas is `2 ^ 53 + 1`, and `GetCounterValue`
returns the double `2 ^ 53`. -/
theorem cross_collection_exact_sum_counterexample :
    Double.exactSum
        (acceptedDeltas (fun _ => 7) "k"
          (TraceCollection.events
            [("t", [("k", (⟨EventType.CounterDelta, 7, Double.ofInt 9007199254740992⟩ :
              TraceEvent))])] ++
           TraceCollection.events
            [("t", [("k", (⟨EventType.CounterDelta, 7, Double.ofInt 1⟩ : TraceEvent))])])) =
      some 9007199254740993 ∧
    ((((PerfReporter.new._OnCollection (fun _ => 7)
          [("t", [("k", (⟨EventType.CounterDelta, 7, Double.ofInt 9007199254740992⟩ :
            TraceEvent))])])._OnCollection (fun _ => 7)
          [("t", [("k", (⟨EventType.CounterDelta, 7, Double.ofInt 1⟩ :
            TraceEvent))])]).GetCounterValue "k").1).toRat =
      some 9007199254740992 := by
  have hd : acceptedDeltas (fun _ => 7) "k"
      (TraceCollection.events
        [("t", [("k", (⟨EventType.CounterDelta, 7, Double.ofInt 9007199254740992⟩ :
          TraceEvent))])] ++
       TraceCollection.events
        [("t", [("k", (⟨EventType.CounterDelta, 7, Double.ofInt 1⟩ : TraceEvent))])]) =
      [Double.ofInt 9007199254740992, Double.ofInt 1] :=
    acceptedDeltas_of_deltas (fun _ => 7) 7 rfl "k"
      [Double.ofInt 9007199254740992, Double.ofInt 1]
  constructor
  · rw [hd]
    exact exactSum_two_pow_53_one
  · have h1 : (PerfReporter.new._OnCollection (fun _ => 7)
        [("t", [("k", (⟨EventType.CounterDelta, 7, Double.ofInt 9007199254740992⟩ :
          TraceEvent))])])._OnCollection (fun _ => 7)
        [("t", [("k", (⟨EventType.CounterDelta, 7, Double.ofInt 1⟩ : TraceEvent))])] =
        PerfReporter.new._OnCollection (fun _ => 7)
          ([("t", [("k", (⟨EventType.CounterDelta, 7, Double.ofInt 9007199254740992⟩ :
            TraceEvent))])] ++
           [("t", [("k", (⟨EventType.CounterDelta, 7, Double.ofInt 1⟩ : TraceEvent))])]) := by
      simp only [OnCollection_eq_foldl, events_append, List.foldl_append]
    rw [h1, value_OnCollection_new, events_append, hd, Double.sum_pair,
      Double.add_two_pow_53_one, Double.toRat_ofInt_two_pow_53]

/-- C7 (scope independence): two collections with the same counter deltas in
the same order leave the same counter table, whatever scope begin and end
events (or other events that are not counter deltas) stand between them. -/
theorem scope_independence (mkId : String → TraceCategoryId) (r : PerfReporter)
    (c1 c2 : TraceCollection)
    (h : c1.events.filter isCounterDelta = c2.events.filter isCounterDelta) :
    (r._OnCollection mkId c1).counters = (r._OnCollection mkId c2).counters := by
  have hdrop : ∀ c : TraceCollection, r._OnCollection mkId c =
      (c.events.filter isCounterDelta).foldl (PerfReporter.step mkId) r := by
    intro c
    rw [OnCollection_eq_foldl, foldl_step_filter mkId isCounterDelta
      (fun s x hx => step_of_not_delta mkId s x hx)]
  rw [hdrop c1, hdrop c2, h]

/-- Witness of C7: the collection of `main`, with its scope around the first
delta, against the two deltas alone. -/
theorem scope_independence_witness :
    (TraceCollection.events (main_collection (fun _ => 7) 1 3)).filter isCounterDelta =
      (TraceCollection.events
        [("main", [("first_counter", (⟨EventType.CounterDelta, 7, Double.ofInt 1⟩ :
                      TraceEvent)),
                   ("first_counter", (⟨EventType.CounterDelta, 7, Double.ofInt 3⟩ :
                      TraceEvent))])]).filter
        isCounterDelta ∧
    (PerfReporter.new._OnCollection (fun _ => 7) (main_collection (fun _ => 7) 1 3)).counters =
      (PerfReporter.new._OnCollection (fun _ => 7)
        [("main", [("first_counter", (⟨EventType.CounterDelta, 7, Double.ofInt 1⟩ :
                      TraceEvent)),
                   ("first_counter", (⟨EventType.CounterDelta, 7, Double.ofInt 3⟩ :
                      TraceEvent))])]).counters :=
  ⟨rfl, scope_independence (fun _ => 7) PerfReporter.new _ _ rfl⟩

/-- C9 (frame of `OnEvent`): for a key other than the one of the call, the
lookup and `HasCounter` are the same before and after `OnEvent`; and a key for
which `HasCounter` holds is still present after any further `OnEvent` calls. -/
theorem OnEvent_frame (r : PerfReporter) (t : TraceThreadId) (k : TfToken) (e : TraceEvent)
    (key : String) :
    (key ≠ k →
      (r.OnEvent t k e).counters.find key = r.counters.find key ∧
      (r.OnEvent t k e).HasCounter key = r.HasCounter key) ∧
    (r.HasCounter key = true → (r.OnEvent t k e).HasCounter key = true) ∧
    (∀ evs : List (TraceThreadId × TfToken × TraceEvent),
      r.HasCounter key = true → (r.OnEvents evs).HasCounter key = true) := by
  refine ⟨?_, HasCounter_OnEvent_of_HasCounter r t k e key, ?_⟩
  · intro hne
    have hfind : (r.OnEvent t k e).counters.find key = r.counters.find key := by
      rw [PerfReporter.find_OnEvent]
      simp [hne]
    refine ⟨hfind, ?_⟩
    unfold PerfReporter.HasCounter
    rw [hfind]
  · intro evs h
    exact HasCounter_OnEvents_of_HasCounter evs r key h

/-- Witness of C9: after a delta for `a`, a delta for `b` leaves the lookup of
`a` alone, and `a` is still present after two more calls. -/
theorem OnEvent_frame_witness :
    ("a" : String) ≠ "b" ∧
    (PerfReporter.new.OnEvent "t" "a"
      ⟨EventType.CounterDelta, 7, Double.ofInt 2⟩).HasCounter "a" = true ∧
    ((PerfReporter.new.OnEvent "t" "a" ⟨EventType.CounterDelta, 7, Double.ofInt 2⟩).OnEvent
        "t" "b" ⟨EventType.CounterDelta, 7, Double.ofInt 5⟩).counters.find "a" =
      (PerfReporter.new.OnEvent "t" "a"
        ⟨EventType.CounterDelta, 7, Double.ofInt 2⟩).counters.find "a" ∧
    ((PerfReporter.new.OnEvent "t" "a" ⟨EventType.CounterDelta, 7, Double.ofInt 2⟩).OnEvents
        [("t", "b", ⟨EventType.CounterDelta, 7, Double.ofInt 5⟩),
         ("t", "a", ⟨EventType.End, 7, Double.zero⟩)]).HasCounter "a" = true :=
  ⟨by decide, rfl,
   ((OnEvent_frame
      (PerfReporter.new.OnEvent "t" "a" ⟨EventType.CounterDelta, 7, Double.ofInt 2⟩) "t" "b"
      ⟨EventType.CounterDelta, 7, Double.ofInt 5⟩ "a").1 (by decide)).1,
   (OnEvent_frame
      (PerfReporter.new.OnEvent "t" "a" ⟨EventType.CounterDelta, 7, Double.ofInt 2⟩) "t" "b"
      ⟨EventType.CounterDelta, 7, Double.ofInt 5⟩ "a").2.2 _ rfl⟩

end PerfTrace
